import Mathlib

/-!
Verification of the ChromaPDF core against its specification.

The development shallowly embeds the three source files:
* `src/services/localImageService.ts` — the per-pixel color transform
  (`hexToRgb`, `colorizeImage`), modelled over exact reals;
* `src/App.tsx` — the batch orchestrator (`handleColorizeAll`) modelled as
  the list of observable events (progress updates, cache writes, error
  logs) produced by the loop, and the output assembler (`handleDownloadPDF`)
  modelled as the list of produced PDF pages;
* `src/utils/pdfHelpers.ts` — only its rendering oracle shape is needed,
  modelled as an `Option`-returning function.
-/

namespace ChromaPDF

/-! Section: Color data (src/services/localImageService.ts) -/

/-- An RGB triple, channels 0..255. -/
structure RGB where
  r : ℕ
  g : ℕ
  b : ℕ
deriving DecidableEq

/-- One RGBA pixel of an `ImageData` buffer. -/
structure Pixel where
  r : ℕ
  g : ℕ
  b : ℕ
  a : ℕ
deriving DecidableEq

/-- Whether a character is matched by the character class of the regex in
`hexToRgb` (line 9): a hex digit, case-insensitively. -/
def isHexDigitChar (c : Char) : Bool :=
  (decide ('0' ≤ c) && decide (c ≤ '9')) ||
  (decide ('a' ≤ c) && decide (c ≤ 'f')) ||
  (decide ('A' ≤ c) && decide (c ≤ 'F'))

/-- Numeric value of a hex digit, as used by a two-digit radix-16 parseInt. -/
def hexDigitVal (c : Char) : ℕ :=
  if '0' ≤ c ∧ c ≤ '9' then c.toNat - Char.toNat '0'
  else if 'a' ≤ c ∧ c ≤ 'f' then c.toNat - Char.toNat 'a' + 10
  else if 'A' ≤ c ∧ c ≤ 'F' then c.toNat - Char.toNat 'A' + 10
  else 0

/-- The optional leading hash of the regex `^#?...`. -/
def stripHash : List Char → List Char
  | '#' :: rest => rest
  | s => s

/-- The regex exec of `hexToRgb` (line 9): after an optional `#`, exactly six
case-insensitive hex digits, captured pairwise and parsed in radix 16. -/
def regexExec (s : List Char) : Option RGB :=
  match stripHash s with
  | [c1, c2, c3, c4, c5, c6] =>
    if isHexDigitChar c1 && isHexDigitChar c2 && isHexDigitChar c3 &&
        isHexDigitChar c4 && isHexDigitChar c5 && isHexDigitChar c6 then
      some ⟨hexDigitVal c1 * 16 + hexDigitVal c2,
            hexDigitVal c3 * 16 + hexDigitVal c4,
            hexDigitVal c5 * 16 + hexDigitVal c6⟩
    else none
  | _ => none

/-- `hexToRgb` (lines 8-15): parse the color, falling back to black when the
regex does not match. -/
def hexToRgb (s : List Char) : RGB :=
  match regexExec s with
  | some c => c
  | none => ⟨0, 0, 0⟩

/-- A valid 6-hex-digit RGB color string in the sense of the spec: an optional
leading hash followed by exactly six case-insensitive hex digits. -/
def isValidHexColor (s : List Char) : Bool :=
  (stripHash s).length = 6 && (stripHash s).all isHexDigitChar

/-! Section: The transform parameters (lines 57-59), over exact reals -/

/-- `blackPoint = Math.floor((boldness / 100) * 200)` (line 57). -/
noncomputable def blackPoint (boldness : ℝ) : ℤ :=
  ⌊boldness / 100 * 200⌋

/-- `whitePoint = 255 - Math.floor(((100 - boldness) / 100) * 10)` (line 58). -/
noncomputable def whitePoint (boldness : ℝ) : ℤ :=
  255 - ⌊(100 - boldness) / 100 * 10⌋

/-- `gamma = 1.0 + (boldness / 100) * 3.0` (line 59). -/
noncomputable def gamma (boldness : ℝ) : ℝ :=
  1.0 + boldness / 100 * 3.0

/-- Perceptual luminance (line 71): `0.299 * r + 0.587 * g + 0.114 * b`. -/
noncomputable def luminance (r g b : ℕ) : ℝ :=
  0.299 * r + 0.587 * g + 0.114 * b

/-- The two clamping ifs of lines 77-78. -/
noncomputable def clamp01 (t : ℝ) : ℝ :=
  if t < 0 then 0 else if t > 1 then 1 else t

/-- The conditional power curve of lines 81-83: applied only strictly between
the boundary values. -/
noncomputable def applyGamma (g t : ℝ) : ℝ :=
  if 0 < t ∧ t < 1 then t ^ g else t

/-- The full `t` pipeline of lines 74-83 for one luminance value. -/
noncomputable def tValue (boldness L : ℝ) : ℝ :=
  applyGamma (gamma boldness)
    (clamp01 ((L - (blackPoint boldness : ℝ)) /
      ((whitePoint boldness : ℝ) - (blackPoint boldness : ℝ))))

/-- One output channel (lines 88-90): `Math.round(target * (1 - t) + 255 * t)`. -/
noncomputable def mixChannel (target : ℕ) (t : ℝ) : ℕ :=
  (round ((target : ℝ) * (1 - t) + 255 * t)).toNat

/-- The per-pixel body of the loop in `colorizeImage` (lines 61-92):
transparent pixels are skipped, all others are interpolated between the
target color and white; alpha is never written. -/
noncomputable def colorizePixel (target : RGB) (boldness : ℝ) (p : Pixel) : Pixel :=
  if p.a = 0 then p
  else
    let t := tValue boldness (luminance p.r p.g p.b)
    ⟨mixChannel target.r t, mixChannel target.g t, mixChannel target.b t, p.a⟩

/-- The transform as the spec states it (§4.1, step 2), written directly from
the spec's words: parameters by their closed formulas, `t` normalized with
`clamp` as a min/max, the power curve applied exactly when `0 < t < 1`, and
each channel set to `round(target * (1 - t) + 255 * t)` with alpha unchanged. -/
noncomputable def specTransformPixel (target : RGB) (b : ℝ) (p : Pixel) : Pixel :=
  if p.a ≠ 0 then
    let L : ℝ := 0.299 * p.r + 0.587 * p.g + 0.114 * p.b
    let bp : ℤ := ⌊b / 100 * 200⌋
    let wp : ℤ := 255 - ⌊(100 - b) / 100 * 10⌋
    let g : ℝ := 1.0 + b / 100 * 3.0
    let t0 : ℝ := min 1 (max 0 ((L - (bp : ℝ)) / ((wp : ℝ) - (bp : ℝ))))
    let t : ℝ := if 0 < t0 ∧ t0 < 1 then t0 ^ g else t0
    ⟨(round ((target.r : ℝ) * (1 - t) + 255 * t)).toNat,
     (round ((target.g : ℝ) * (1 - t) + 255 * t)).toNat,
     (round ((target.b : ℝ) * (1 - t) + 255 * t)).toNat,
     p.a⟩
  else p

/-! Section: Batch orchestrator (src/App.tsx, handleColorizeAll, lines 187-232)

The loop is modelled by the list of observable events it emits, against two
oracles: `render` (the awaited `renderPageToImage`, whose failure is a thrown
exception caught only by the outer try/catch) and `colorize` (the awaited
`colorizeImage`, whose failure is a resolved `{error}` result). -/

/-- A colorized artifact as stored in `colorizedPages`: the data-URL of the
colorized image (as an id) plus the rendered page's dimensions. -/
structure Artifact where
  imageId : ℕ
  width : ℕ
  height : ℕ
deriving DecidableEq

/-- Observable events of a batch run: `setBatchProgress`, a cache write
published through `setColorizedPages`, the per-page `console.error` log, the
outer catch's `setError`, and the `finally` clause's `setBatchProgress(null)`. -/
inductive BEvent
  | progress (current total : ℕ)
  | cacheSet (page : ℕ) (art : Artifact)
  | logError (page : ℕ)
  | setError
  | progressCleared
deriving DecidableEq

/-- The `for` loop of lines 199-224 plus the surrounding catch/finally, over
the list of remaining page numbers.  Each iteration first publishes progress
(line 200), then renders (line 207; a render failure escapes to the outer
catch, which sets the error and the `finally` clause clears progress), then
colorizes (line 212; a colorize failure is only logged and the loop
continues; on success the page is written to the cache). -/
def batchLoop (render : ℕ → Option Artifact) (colorize : ℕ → Option ℕ)
    (total : ℕ) : List ℕ → List BEvent
  | [] => [.progressCleared]
  | i :: rest =>
    .progress i total ::
      match render i with
      | none => [.setError, .progressCleared]
      | some r =>
        match colorize r.imageId with
        | none => .logError i :: batchLoop render colorize total rest
        | some c =>
          .cacheSet i ⟨c, r.width, r.height⟩ :: batchLoop render colorize total rest

/-- `handleColorizeAll`: the initial `setBatchProgress({current: 0, total})`
of line 191 followed by the loop over pages `1..numPages`. -/
def handleColorizeAll (render : ℕ → Option Artifact) (colorize : ℕ → Option ℕ)
    (numPages : ℕ) : List BEvent :=
  .progress 0 numPages :: batchLoop render colorize numPages (List.range' 1 numPages)

/-- The outcome the run stores for one page when it fully succeeds: `none`
when rendering or colorizing the page fails, otherwise the artifact built at
lines 217-221 from the colorized image and the rendered dimensions. -/
def successArtifact (render : ℕ → Option Artifact) (colorize : ℕ → Option ℕ)
    (i : ℕ) : Option Artifact :=
  match render i with
  | none => none
  | some r =>
    match colorize r.imageId with
    | none => none
    | some c => some ⟨c, r.width, r.height⟩

/-- Lookup in the cache association list. -/
def mapGet (m : List (ℕ × Artifact)) (k : ℕ) : Option Artifact :=
  match m with
  | [] => none
  | (k', v) :: rest => if k' = k then some v else mapGet rest k

/-- `Map.set`: replace any previous binding of the key. -/
def mapSet (m : List (ℕ × Artifact)) (k : ℕ) (v : Artifact) : List (ℕ × Artifact) :=
  (k, v) :: m.filter (fun e => e.1 ≠ k)

/-- The state an external observer can read mid-run: the `batchProgress`
React state and the `colorizedPages` map. -/
structure ObsState where
  progress : Option (ℕ × ℕ)
  cache : List (ℕ × Artifact)
deriving DecidableEq

/-- How each event updates the observable state. -/
def stepEvent (s : ObsState) : BEvent → ObsState
  | .progress c t => { s with progress := some (c, t) }
  | .progressCleared => { s with progress := none }
  | .cacheSet p a => { s with cache := mapSet s.cache p a }
  | .logError _ => s
  | .setError => s

/-- Every observable state reached during a run, in order (including the
state before the first event). -/
def runStates (init : ObsState) (evs : List BEvent) : List ObsState :=
  evs.scanl stepEvent init

/-- The observable state after the run completes. -/
def finalState (init : ObsState) (evs : List BEvent) : ObsState :=
  evs.foldl stepEvent init

/-- What the final cache holds at one key after a run: the page's success
artifact when it succeeded, otherwise whatever the cache held before. -/
def cacheOutcome (render : ℕ → Option Artifact) (colorize : ℕ → Option ℕ)
    (j : ℕ) (old : Option Artifact) : Option Artifact :=
  match successArtifact render colorize j with
  | none => old
  | some a => some a

/-- An observable state is cache-consistent with the published progress when
every successfully processed page strictly before the page currently shown
as in progress is already present in the cache. -/
def cacheConsistent (render : ℕ → Option Artifact) (colorize : ℕ → Option ℕ)
    (N : ℕ) (s : ObsState) : Prop :=
  ∀ i, s.progress = some (i, N) → ∀ j, 1 ≤ j → j < i →
    ∀ a, successArtifact render colorize j = some a → mapGet s.cache j = some a

/-! Section: Output assembler (src/App.tsx, handleDownloadPDF, lines 235-277) -/

/-- One page of the produced PDF: the throwaway default a4 page created by
the `jsPDF` constructor, or a page holding one placed artifact. -/
inductive DocPage
  | blank
  | content (pageNum : ℕ) (pageW pageH x y : ℤ) (imgW imgH imgId : ℕ)
deriving DecidableEq

/-- Insert one cache entry into a key-sorted list (the effect of the
comparator `(a, b) => a[0] - b[0]` at line 246). -/
def insertPage (e : ℕ × Artifact) : List (ℕ × Artifact) → List (ℕ × Artifact)
  | [] => [e]
  | x :: xs => if e.1 ≤ x.1 then e :: x :: xs else x :: insertPage e xs

/-- Sort the cache entries by page number ascending (line 246). -/
def sortPages : List (ℕ × Artifact) → List (ℕ × Artifact)
  | [] => []
  | x :: xs => insertPage x (sortPages xs)

/-- The body of the `forEach` at lines 248-263: compute the margin from the
artifact's width, add a page enlarged by the margin on both sides, and place
the image offset by the margin. -/
def renderPage (marginPercent : ℚ) (e : ℕ × Artifact) : DocPage :=
  let marginPx : ℤ := ⌊(e.2.width : ℚ) * (marginPercent / 100)⌋
  DocPage.content e.1
    ((e.2.width : ℤ) + marginPx * 2) ((e.2.height : ℤ) + marginPx * 2)
    marginPx marginPx e.2.width e.2.height e.2.imageId

/-- `handleDownloadPDF`: bail out when the cache is empty (line 236);
otherwise start from the constructor's single default page, append one page
per cache entry in ascending page order, and delete the default page when
more pages than artifacts exist (lines 266-269).  The result is the list of
pages of the saved document. -/
def handleDownloadPDF (cache : List (ℕ × Artifact)) (marginPercent : ℚ) :
    Option (List DocPage) :=
  if cache.length = 0 then none
  else
    let sorted := sortPages cache
    let doc := DocPage.blank :: sorted.map (renderPage marginPercent)
    some (if sorted.length < doc.length then doc.tail else doc)

/-! Section: Shared helper lemmas -/

/-- Rounding is monotone. -/
theorem round_mono_of_le {x y : ℝ} (h : x ≤ y) : round x ≤ round y := by
  rw [round_eq, round_eq]
  exact Int.floor_le_floor (by linarith)

/-- The clamped value never drops below 0. -/
theorem clamp01_nonneg (t : ℝ) : 0 ≤ clamp01 t := by
  unfold clamp01
  split_ifs <;> linarith

/-- The clamped value never exceeds 1. -/
theorem clamp01_le_one (t : ℝ) : clamp01 t ≤ 1 := by
  unfold clamp01
  split_ifs <;> linarith

/-- The two-branch clamp of the code equals the spec's min/max clamp. -/
theorem clamp01_eq_min_max (t : ℝ) : clamp01 t = min 1 (max 0 t) := by
  unfold clamp01
  split_ifs with h1 h2
  · rw [max_eq_left h1.le, min_eq_right (by norm_num : (0:ℝ) ≤ 1)]
  · rw [max_eq_right (not_lt.1 h1), min_eq_left h2.le]
  · rw [max_eq_right (not_lt.1 h1), min_eq_right (not_lt.1 h2)]

/-- A non-positive value clamps to exactly 0. -/
theorem clamp01_of_nonpos {t : ℝ} (h : t ≤ 0) : clamp01 t = 0 := by
  unfold clamp01
  split_ifs with h1 h2 <;> linarith

/-- A non-negative value clamps to `min 1 t`. -/
theorem clamp01_of_nonneg {t : ℝ} (h : 0 ≤ t) : clamp01 t = min 1 t := by
  unfold clamp01
  split_ifs with h1 h2
  · linarith
  · rw [min_eq_left h2.le]
  · rw [min_eq_right (not_lt.1 h2)]

/-- With exponent 1 the conditional power curve is the identity. -/
theorem applyGamma_one (t : ℝ) : applyGamma 1 t = t := by
  unfold applyGamma
  split_ifs with h
  · exact Real.rpow_one t
  · rfl

/-- The conditional power curve never blows a clamped value out of [0, 1]
for a non-negative exponent. -/
theorem applyGamma_clamped_mem {g t : ℝ} (hg : 0 ≤ g) (h0 : 0 ≤ t) (h1 : t ≤ 1) :
    0 ≤ applyGamma g t ∧ applyGamma g t ≤ 1 := by
  unfold applyGamma
  split_ifs with h
  · exact ⟨Real.rpow_nonneg h0 g, Real.rpow_le_one h0 h1 hg⟩
  · exact ⟨h0, h1⟩

/-- The gamma exponent is at least 1 for non-negative boldness. -/
theorem gamma_nonneg {b : ℝ} (hb : 0 ≤ b) : 0 ≤ gamma b := by
  unfold gamma
  nlinarith

/-- For any non-negative boldness the fully processed `t` stays in [0, 1]. -/
theorem tValue_mem {b : ℝ} (hb : 0 ≤ b) (L : ℝ) :
    0 ≤ tValue b L ∧ tValue b L ≤ 1 := by
  unfold tValue
  exact applyGamma_clamped_mem (gamma_nonneg hb) (clamp01_nonneg _) (clamp01_le_one _)

/-- Luminance of natural channels is non-negative. -/
theorem luminance_nonneg (r g b : ℕ) : 0 ≤ luminance r g b := by
  unfold luminance
  positivity

/-- A channel mixed with interpolation parameter 0 is exactly the target. -/
theorem mixChannel_zero (c : ℕ) : mixChannel c 0 = c := by
  unfold mixChannel
  norm_num

/-- The mixed channel is the rounding of an affine function of `t`. -/
theorem mixChannel_eq_affine (c : ℕ) (t : ℝ) :
    mixChannel c t = (round ((c : ℝ) + (255 - c) * t)).toNat := by
  have h : (c : ℝ) * (1 - t) + 255 * t = (c : ℝ) + (255 - c) * t := by ring
  rw [mixChannel, h]

/-- For `t` in [0, 1] and a byte-sized target channel, the mixed channel lies
between the target channel and 255. -/
theorem mixChannel_bounds {c : ℕ} (hc : c ≤ 255) {t : ℝ} (h0 : 0 ≤ t) (h1 : t ≤ 1) :
    c ≤ mixChannel c t ∧ mixChannel c t ≤ 255 := by
  have hcr : (c : ℝ) ≤ 255 := by exact_mod_cast hc
  have hlo : (c : ℝ) ≤ (c : ℝ) * (1 - t) + 255 * t := by nlinarith
  have hhi : (c : ℝ) * (1 - t) + 255 * t ≤ 255 := by nlinarith
  have hlo' : (c : ℤ) ≤ round ((c : ℝ) * (1 - t) + 255 * t) := by
    calc (c : ℤ) = round ((c : ℕ) : ℝ) := (round_natCast c).symm
    _ ≤ _ := round_mono_of_le hlo
  have hhi' : round ((c : ℝ) * (1 - t) + 255 * t) ≤ (255 : ℤ) := by
    calc round ((c : ℝ) * (1 - t) + 255 * t) ≤ round ((255 : ℝ)) := round_mono_of_le hhi
    _ = 255 := by simp
  unfold mixChannel
  omega

/-- The mixed channel is monotone in the interpolation parameter. -/
theorem mixChannel_mono {c : ℕ} (hc : c ≤ 255) {t t' : ℝ} (h : t ≤ t') :
    mixChannel c t ≤ mixChannel c t' := by
  have hcr : (c : ℝ) ≤ 255 := by exact_mod_cast hc
  have hle : (c : ℝ) * (1 - t) + 255 * t ≤ (c : ℝ) * (1 - t') + 255 * t' := by nlinarith
  exact Int.toNat_le_toNat (round_mono_of_le hle)

/-- A matching regex exec implies the input was a valid hex color string. -/
theorem regexExec_some_valid {s : List Char} {c : RGB} (h : regexExec s = some c) :
    isValidHexColor s = true := by
  unfold regexExec at h
  split at h
  next c1 c2 c3 c4 c5 c6 heq =>
    split at h
    next hhex =>
      simp only [isValidHexColor, heq]
      simp only [Bool.and_eq_true] at hhex
      simp [hhex.1.1.1.1.1, hhex.1.1.1.1.2, hhex.1.1.1.2, hhex.1.1.2, hhex.1.2, hhex.2]
    next => exact absurd h (by simp)
  next => exact absurd h (by simp)

/-! Section: The claims -/

/-- Claim C8: every pixel whose alpha channel equals 0 passes through the transform
completely unchanged, for every target color and boldness. -/
theorem alpha_zero_passthrough (target : RGB) (boldness : ℝ) (p : Pixel)
    (h : p.a = 0) : colorizePixel target boldness p = p := by
  simp [colorizePixel, h]

/-- Witness for C8 at a concrete transparent pixel. -/
theorem alpha_zero_passthrough_witness :
    (Pixel.mk 9 8 7 0).a = 0 ∧
      colorizePixel ⟨1, 2, 3⟩ 60 ⟨9, 8, 7, 0⟩ = ⟨9, 8, 7, 0⟩ :=
  ⟨rfl, alpha_zero_passthrough ⟨1, 2, 3⟩ 60 ⟨9, 8, 7, 0⟩ rfl⟩

/-- Claim C9: any target-color string that is not a valid 6-hex-digit RGB string is
silently treated as black `(0,0,0)`; `hexToRgb` is total and never fails. -/
theorem hexToRgb_invalid_is_black (s : List Char)
    (h : isValidHexColor s = false) : hexToRgb s = ⟨0, 0, 0⟩ := by
  cases hre : regexExec s with
  | none => simp [hexToRgb, hre]
  | some c => rw [regexExec_some_valid hre] at h; cases h

/-- Witness for C9 at a concrete malformed color string. -/
theorem hexToRgb_invalid_is_black_witness :
    isValidHexColor ['z', 'z'] = false ∧ hexToRgb ['z', 'z'] = ⟨0, 0, 0⟩ :=
  ⟨by decide, hexToRgb_invalid_is_black ['z', 'z'] (by decide)⟩

/-- Claim C4: at boldness 100 the black point is 200 and gamma is 4, and every
pixel with nonzero alpha and luminance at most 200 gets `t = 0`, so its
output RGB is exactly the target color, with alpha unchanged. -/
theorem boldness100_dark_is_target (target : RGB) (p : Pixel)
    (ha : p.a ≠ 0) (hl : luminance p.r p.g p.b ≤ 200) :
    blackPoint 100 = 200 ∧ gamma 100 = 4 ∧
      tValue 100 (luminance p.r p.g p.b) = 0 ∧
      colorizePixel target 100 p = ⟨target.r, target.g, target.b, p.a⟩ := by
  have hbp : blackPoint 100 = 200 := by
    have h : (100 : ℝ) / 100 * 200 = 200 := by norm_num
    rw [blackPoint, h]
    simp
  have hwp : whitePoint 100 = 255 := by
    have h : ((100 : ℝ) - 100) / 100 * 10 = 0 := by norm_num
    rw [whitePoint, h]
    simp
  have hg : gamma 100 = 4 := by
    unfold gamma
    norm_num
  have ht : tValue 100 (luminance p.r p.g p.b) = 0 := by
    unfold tValue
    rw [hbp, hwp]
    have harg : (luminance p.r p.g p.b - ((200 : ℤ) : ℝ)) /
        (((255 : ℤ) : ℝ) - ((200 : ℤ) : ℝ)) ≤ 0 := by
      push_cast
      apply div_nonpos_of_nonpos_of_nonneg <;> linarith
    rw [clamp01_of_nonpos harg]
    simp [applyGamma]
  refine ⟨hbp, hg, ht, ?_⟩
  rw [colorizePixel, if_neg ha]
  simp only [ht, mixChannel_zero]

/-- Witness for C4 at a concrete mid-gray pixel. -/
theorem boldness100_dark_is_target_witness :
    (Pixel.mk 100 100 100 255).a ≠ 0 ∧ luminance 100 100 100 ≤ 200 ∧
      colorizePixel ⟨10, 20, 30⟩ 100 ⟨100, 100, 100, 255⟩ = ⟨10, 20, 30, 255⟩ := by
  have hl : luminance 100 100 100 ≤ 200 := by
    unfold luminance
    norm_num
  exact ⟨by decide, hl,
    (boldness100_dark_is_target ⟨10, 20, 30⟩ ⟨100, 100, 100, 255⟩ (by decide) hl).2.2.2⟩

/-- Claim C1: for every boldness in [0,100], target color and pixel, the code's
per-pixel transform computes exactly the spec's formula: the three closed
parameter formulas, luminance with the fixed weights, min/max clamping of
the normalized value, the power curve applied exactly when `0 < t < 1`, and
`round(target * (1 - t) + 255 * t)` per channel with alpha unchanged. -/
theorem colorize_matches_spec (target : RGB) (b : ℝ) (p : Pixel)
    (h0 : 0 ≤ b) (h1 : b ≤ 100) :
    colorizePixel target b p = specTransformPixel target b p := by
  by_cases ha : p.a = 0
  · simp [colorizePixel, specTransformPixel, ha]
  · rw [colorizePixel, if_neg ha, specTransformPixel, if_pos ha]
    rw [tValue, clamp01_eq_min_max]
    rfl

/-- Witness for C1 at a concrete boldness and pixel. -/
theorem colorize_matches_spec_witness :
    (0 : ℝ) ≤ 60 ∧ (60 : ℝ) ≤ 100 ∧
      colorizePixel ⟨0, 0, 0⟩ 60 ⟨1, 2, 3, 4⟩ = specTransformPixel ⟨0, 0, 0⟩ 60 ⟨1, 2, 3, 4⟩ :=
  ⟨by norm_num, by norm_num,
    colorize_matches_spec ⟨0, 0, 0⟩ 60 ⟨1, 2, 3, 4⟩ (by norm_num) (by norm_num)⟩

/-- Claim C10: for every pixel with nonzero alpha, byte-sized target color and
boldness in [0,100], each output channel lies between the corresponding
target channel and 255: the output is on the segment from the target color
to white. -/
theorem output_between_target_and_white (target : RGB) (b : ℝ) (p : Pixel)
    (ha : p.a ≠ 0) (h0 : 0 ≤ b) (h1 : b ≤ 100)
    (hr : target.r ≤ 255) (hg : target.g ≤ 255) (hb : target.b ≤ 255) :
    (target.r ≤ (colorizePixel target b p).r ∧ (colorizePixel target b p).r ≤ 255) ∧
      (target.g ≤ (colorizePixel target b p).g ∧ (colorizePixel target b p).g ≤ 255) ∧
      (target.b ≤ (colorizePixel target b p).b ∧ (colorizePixel target b p).b ≤ 255) := by
  obtain ⟨ht0, ht1⟩ := tValue_mem h0 (luminance p.r p.g p.b)
  rw [colorizePixel, if_neg ha]
  exact ⟨mixChannel_bounds hr ht0 ht1, mixChannel_bounds hg ht0 ht1,
    mixChannel_bounds hb ht0 ht1⟩

/-- Witness for C10 at a concrete pixel, target and boldness. -/
theorem output_between_target_and_white_witness :
    (Pixel.mk 10 20 30 5).a ≠ 0 ∧ (0 : ℝ) ≤ 50 ∧ (50 : ℝ) ≤ 100 ∧
      (7 ≤ (colorizePixel ⟨7, 8, 9⟩ 50 ⟨10, 20, 30, 5⟩).r ∧
        (colorizePixel ⟨7, 8, 9⟩ 50 ⟨10, 20, 30, 5⟩).r ≤ 255) ∧
      (8 ≤ (colorizePixel ⟨7, 8, 9⟩ 50 ⟨10, 20, 30, 5⟩).g ∧
        (colorizePixel ⟨7, 8, 9⟩ 50 ⟨10, 20, 30, 5⟩).g ≤ 255) ∧
      (9 ≤ (colorizePixel ⟨7, 8, 9⟩ 50 ⟨10, 20, 30, 5⟩).b ∧
        (colorizePixel ⟨7, 8, 9⟩ 50 ⟨10, 20, 30, 5⟩).b ≤ 255) := by
  have h := output_between_target_and_white ⟨7, 8, 9⟩ 50 ⟨10, 20, 30, 5⟩
    (by decide) (by norm_num) (by norm_num) (by decide) (by decide) (by decide)
  exact ⟨by decide, by norm_num, by norm_num, h.1, h.2.1, h.2.2⟩

/-- The white point at boldness 0, computed from the code's formula. -/
theorem whitePoint_zero : whitePoint 0 = 245 := by
  have h : ((100 : ℝ) - 0) / 100 * 10 = 10 := by norm_num
  rw [whitePoint, h]
  simp

/-- Counterexample to C6 as stated: at boldness 0 the code's white point is
245, not 255 (the code computes `255 - floor((100 - 0)/100 * 10) = 245`). -/
theorem boldness0_whitePoint_cex : whitePoint 0 = 245 ∧ whitePoint 0 ≠ 255 :=
  ⟨whitePoint_zero, by rw [whitePoint_zero]; decide⟩

/-- At boldness 0 the processed `t` is the luminance divided by 245, clamped
above at 1. -/
theorem tValue_boldness0 (r g b : ℕ) :
    tValue 0 (luminance r g b) = min 1 (luminance r g b / 245) := by
  have hbp : blackPoint 0 = 0 := by
    have h : (0 : ℝ) / 100 * 200 = 0 := by norm_num
    rw [blackPoint, h]
    simp
  have hwp : whitePoint 0 = 245 := whitePoint_zero
  have hg : gamma 0 = 1 := by
    unfold gamma
    norm_num
  rw [tValue, hbp, hwp, hg]
  have harg : (luminance r g b - ((0 : ℤ) : ℝ)) / (((245 : ℤ) : ℝ) - ((0 : ℤ) : ℝ)) =
      luminance r g b / 245 := by
    push_cast
    ring
  rw [harg, clamp01_of_nonneg (div_nonneg (luminance_nonneg r g b) (by norm_num)),
    applyGamma_one]

/-- Claim C6, amended: at boldness 0 the parameters are blackPoint 0,
whitePoint 245 (not 255) and gamma 1, and each output channel of an opaque
pixel is the rounding of an affine function of luminance, clamped at the
white point 245: `round(target + (255 - target) * min(1, L/245))`.  The
output is monotone non-decreasing in luminance, and linear in it below the
white point's saturation. -/
theorem boldness0_linear_monotone (target : RGB) (p q : Pixel)
    (hpa : p.a ≠ 0) (hqa : q.a ≠ 0)
    (hr : target.r ≤ 255) (hg : target.g ≤ 255) (hb : target.b ≤ 255) :
    blackPoint 0 = 0 ∧ whitePoint 0 = 245 ∧ gamma 0 = 1 ∧
      colorizePixel target 0 p =
        ⟨(round ((target.r : ℝ) + (255 - target.r) *
            min 1 (luminance p.r p.g p.b / 245))).toNat,
         (round ((target.g : ℝ) + (255 - target.g) *
            min 1 (luminance p.r p.g p.b / 245))).toNat,
         (round ((target.b : ℝ) + (255 - target.b) *
            min 1 (luminance p.r p.g p.b / 245))).toNat,
         p.a⟩ ∧
      (luminance p.r p.g p.b ≤ luminance q.r q.g q.b →
        (colorizePixel target 0 p).r ≤ (colorizePixel target 0 q).r ∧
          (colorizePixel target 0 p).g ≤ (colorizePixel target 0 q).g ∧
          (colorizePixel target 0 p).b ≤ (colorizePixel target 0 q).b) := by
  have hbp : blackPoint 0 = 0 := by
    have h : (0 : ℝ) / 100 * 200 = 0 := by norm_num
    rw [blackPoint, h]
    simp
  have hgam : gamma 0 = 1 := by
    unfold gamma
    norm_num
  refine ⟨hbp, whitePoint_zero, hgam, ?_, ?_⟩
  · simp only [colorizePixel, hpa, ite_false, tValue_boldness0, mixChannel_eq_affine]
  · intro hL
    have hmin : min 1 (luminance p.r p.g p.b / 245) ≤
        min 1 (luminance q.r q.g q.b / 245) :=
      min_le_min le_rfl ((div_le_div_iff_of_pos_right (by norm_num)).mpr hL)
    simp only [colorizePixel, hpa, hqa, ite_false, tValue_boldness0]
    exact ⟨mixChannel_mono hr hmin, mixChannel_mono hg hmin, mixChannel_mono hb hmin⟩

/-- Witness for the amended C6 at concrete pixels and target. -/
theorem boldness0_linear_monotone_witness :
    (Pixel.mk 1 2 3 4).a ≠ 0 ∧ (Pixel.mk 4 5 6 7).a ≠ 0 ∧
      colorizePixel ⟨10, 20, 30⟩ 0 ⟨1, 2, 3, 4⟩ =
        ⟨(round ((10 : ℝ) + (255 - 10) * min 1 (luminance 1 2 3 / 245))).toNat,
         (round ((20 : ℝ) + (255 - 20) * min 1 (luminance 1 2 3 / 245))).toNat,
         (round ((30 : ℝ) + (255 - 30) * min 1 (luminance 1 2 3 / 245))).toNat,
         4⟩ := by
  have h := boldness0_linear_monotone ⟨10, 20, 30⟩ ⟨1, 2, 3, 4⟩ ⟨4, 5, 6, 7⟩
    (by decide) (by decide) (by decide) (by decide) (by decide)
  exact ⟨by decide, by decide, h.2.2.2.1⟩

/-- Inserting into the sorted prefix permutes consing. -/
theorem insertPage_perm (e : ℕ × Artifact) (l : List (ℕ × Artifact)) :
    List.Perm (insertPage e l) (e :: l) := by
  induction l with
  | nil => exact List.Perm.refl _
  | cons x xs ih =>
    rw [insertPage]
    split_ifs with h
    · exact List.Perm.refl _
    · exact (List.Perm.cons x ih).trans (List.Perm.swap e x xs)

/-- The assembler's sort is a permutation of the cache entries. -/
theorem sortPages_perm (l : List (ℕ × Artifact)) : List.Perm (sortPages l) l := by
  induction l with
  | nil => exact List.Perm.refl _
  | cons x xs ih => exact (insertPage_perm x (sortPages xs)).trans (List.Perm.cons x ih)

/-- Insertion preserves sortedness by page number. -/
theorem insertPage_sorted {e : ℕ × Artifact} {l : List (ℕ × Artifact)}
    (h : l.Sorted (fun x y => x.1 ≤ y.1)) :
    (insertPage e l).Sorted (fun x y => x.1 ≤ y.1) := by
  induction l with
  | nil => simp [insertPage]
  | cons x xs ih =>
    rw [List.sorted_cons] at h
    rw [insertPage]
    split_ifs with hle
    · rw [List.sorted_cons]
      refine ⟨?_, List.sorted_cons.mpr h⟩
      intro b hb
      rcases List.mem_cons.mp hb with rfl | hb
      · exact hle
      · exact le_trans hle (h.1 b hb)
    · rw [List.sorted_cons]
      refine ⟨?_, ih h.2⟩
      intro b hb
      rcases List.mem_cons.mp ((insertPage_perm e xs).mem_iff.mp hb) with rfl | hb
      · exact le_of_not_le hle
      · exact h.1 b hb

/-- The assembler's sort produces a list sorted by page number. -/
theorem sortPages_sorted (l : List (ℕ × Artifact)) :
    (sortPages l).Sorted (fun x y => x.1 ≤ y.1) := by
  induction l with
  | nil => simp [sortPages]
  | cons x xs ih => exact insertPage_sorted ih

/-- With distinct page numbers the sorted keys are strictly increasing. -/
theorem sortPages_keys_lt {l : List (ℕ × Artifact)}
    (h : (l.map Prod.fst).Nodup) :
    ((sortPages l).map Prod.fst).Sorted (· < ·) := by
  have hle : ((sortPages l).map Prod.fst).Sorted (· ≤ ·) :=
    List.Pairwise.map Prod.fst (fun a b hab => hab) (sortPages_sorted l)
  have hperm : List.Perm ((sortPages l).map Prod.fst) (l.map Prod.fst) :=
    (sortPages_perm l).map Prod.fst
  exact hle.lt_of_le (hperm.symm.nodup h)

/-- Claim C3: the assembler emits exactly one output page per present artifact, in
strictly ascending page-number order (gaps are skipped, and no blank page
survives into the output), and with an empty cache no document is produced
at all. -/
theorem assemble_pages (cache : List (ℕ × Artifact)) (m : ℚ)
    (hnd : (cache.map Prod.fst).Nodup) :
    (cache = [] → handleDownloadPDF cache m = none) ∧
      (cache ≠ [] →
        handleDownloadPDF cache m = some ((sortPages cache).map (renderPage m)) ∧
          ((sortPages cache).map (renderPage m)).length = cache.length ∧
          ((sortPages cache).map Prod.fst).Sorted (· < ·) ∧
          List.Perm ((sortPages cache).map Prod.fst) (cache.map Prod.fst) ∧
          DocPage.blank ∉ (sortPages cache).map (renderPage m)) := by
  constructor
  · intro h
    subst h
    rfl
  · intro hne
    have hlen0 : ¬cache.length = 0 := by
      simpa [List.length_eq_zero] using hne
    refine ⟨?_, ?_, sortPages_keys_lt hnd, (sortPages_perm cache).map Prod.fst, ?_⟩
    · simp only [handleDownloadPDF, if_neg hlen0]
      have hcond : (sortPages cache).length <
          (DocPage.blank :: (sortPages cache).map (renderPage m)).length := by
        simp [List.length_cons]
      rw [if_pos hcond]
      rfl
    · rw [List.length_map]
      exact (sortPages_perm cache).length_eq
    · intro hmem
      rcases List.mem_map.mp hmem with ⟨e, _, he⟩
      simp [renderPage] at he

/-- Witness for C3 at the spec's own example: artifacts for pages 2 and 5,
margin 0. -/
theorem assemble_pages_witness :
    (([((2 : ℕ), Artifact.mk 20 100 200), (5, ⟨50, 80, 90⟩)].map Prod.fst).Nodup) ∧
      ([((2 : ℕ), Artifact.mk 20 100 200), (5, ⟨50, 80, 90⟩)] ≠ [] →
        handleDownloadPDF [(2, ⟨20, 100, 200⟩), (5, ⟨50, 80, 90⟩)] 0 =
          some ((sortPages [(2, ⟨20, 100, 200⟩), (5, ⟨50, 80, 90⟩)]).map (renderPage 0)) ∧
          ((sortPages [(2, ⟨20, 100, 200⟩), (5, ⟨50, 80, 90⟩)]).map (renderPage 0)).length =
            ([((2 : ℕ), Artifact.mk 20 100 200), (5, ⟨50, 80, 90⟩)]).length ∧
          ((sortPages [(2, ⟨20, 100, 200⟩), (5, ⟨50, 80, 90⟩)]).map Prod.fst).Sorted (· < ·) ∧
          List.Perm ((sortPages [(2, ⟨20, 100, 200⟩), (5, ⟨50, 80, 90⟩)]).map Prod.fst)
            ([((2 : ℕ), Artifact.mk 20 100 200), (5, ⟨50, 80, 90⟩)].map Prod.fst) ∧
          DocPage.blank ∉ (sortPages [(2, ⟨20, 100, 200⟩), (5, ⟨50, 80, 90⟩)]).map (renderPage 0)) :=
  ⟨by decide, (assemble_pages [(2, ⟨20, 100, 200⟩), (5, ⟨50, 80, 90⟩)] 0 (by decide)).2⟩

/-- Counterexample to C7 as stated: margin 10 on a 100x200 artifact yields a
120x220 page (the margin is computed from the width only, and the claimed
general formula `h + 2*marginPx` gives 200 + 20 = 220), not the 120x240 page
the claim asserts. -/
theorem margin_example_cex :
    renderPage 10 (1, ⟨7, 100, 200⟩) = DocPage.content 1 120 220 10 10 100 200 7 ∧
      renderPage 10 (1, ⟨7, 100, 200⟩) ≠ DocPage.content 1 120 240 10 10 100 200 7 := by
  have hfl : ⌊((100 : ℕ) : ℚ) * ((10 : ℚ) / 100)⌋ = 10 := by
    have h : ((100 : ℕ) : ℚ) * ((10 : ℚ) / 100) = 10 := by norm_num
    rw [h]
    simp
  constructor <;> simp [renderPage, hfl] <;> norm_num

/-- Claim C7, amended: for every artifact and margin percentage in [0,50] the
assembler computes `marginPx = floor(width * m / 100)` from the width alone,
emits a page of size `(w + 2*marginPx, h + 2*marginPx)` and places the
artifact at `(marginPx, marginPx)`; in particular margin 10 on a 100x200
artifact yields a 120x220 page with the image at (10,10). -/
theorem margin_layout (pn : ℕ) (a : Artifact) (m : ℚ)
    (h0 : 0 ≤ m) (h50 : m ≤ 50) :
    renderPage m (pn, a) =
      DocPage.content pn
        ((a.width : ℤ) + 2 * ⌊(a.width : ℚ) * m / 100⌋)
        ((a.height : ℤ) + 2 * ⌊(a.width : ℚ) * m / 100⌋)
        ⌊(a.width : ℚ) * m / 100⌋ ⌊(a.width : ℚ) * m / 100⌋
        a.width a.height a.imageId := by
  simp only [renderPage]
  rw [mul_div_assoc]
  congr 1 <;> ring

/-- Witness for the amended C7 at the spec's example margin and artifact. -/
theorem margin_layout_witness :
    (0 : ℚ) ≤ 10 ∧ (10 : ℚ) ≤ 50 ∧
      renderPage 10 (1, ⟨7, 100, 200⟩) =
        DocPage.content 1 (100 + 2 * ⌊(100 : ℚ) * 10 / 100⌋)
          (200 + 2 * ⌊(100 : ℚ) * 10 / 100⌋)
          ⌊(100 : ℚ) * 10 / 100⌋ ⌊(100 : ℚ) * 10 / 100⌋ 100 200 7 :=
  ⟨by norm_num, by norm_num,
    margin_layout 1 ⟨7, 100, 200⟩ 10 (by norm_num) (by norm_num)⟩

/-- Folding one more event. -/
theorem finalState_cons (s : ObsState) (e : BEvent) (evs : List BEvent) :
    finalState s (e :: evs) = finalState (stepEvent s e) evs := rfl

/-- Setting a key makes it readable. -/
theorem mapGet_mapSet_self (m : List (ℕ × Artifact)) (k : ℕ) (v : Artifact) :
    mapGet (mapSet m k v) k = some v := by
  simp [mapGet, mapSet]

/-- Filtering out one key leaves lookups of other keys unchanged. -/
theorem mapGet_filter_ne (m : List (ℕ × Artifact)) (k j : ℕ) (h : j ≠ k) :
    mapGet (m.filter (fun e => e.1 ≠ k)) j = mapGet m j := by
  induction m with
  | nil => rfl
  | cons x xs ih =>
    rcases x with ⟨k', v⟩
    by_cases hk : k' = k
    · have h1 : List.filter (fun e => decide (e.1 ≠ k)) ((k', v) :: xs) =
          List.filter (fun e => decide (e.1 ≠ k)) xs := by
        rw [List.filter_cons]
        simp [hk]
      rw [h1, ih]
      have hkj : ¬k' = j := by
        rw [hk]
        exact fun hh => h hh.symm
      simp [mapGet, hkj]
    · have h1 : List.filter (fun e => decide (e.1 ≠ k)) ((k', v) :: xs) =
          (k', v) :: List.filter (fun e => decide (e.1 ≠ k)) xs := by
        rw [List.filter_cons]
        simp [hk]
      rw [h1]
      by_cases hkj : k' = j
      · simp [mapGet, hkj]
      · simp only [mapGet, if_neg hkj]
        exact ih

/-- Setting a key leaves lookups of other keys unchanged. -/
theorem mapGet_mapSet_other (m : List (ℕ × Artifact)) (k : ℕ) (v : Artifact)
    (j : ℕ) (h : j ≠ k) : mapGet (mapSet m k v) j = mapGet m j := by
  rw [mapSet]
  have hkj : ¬k = j := fun hh => h hh.symm
  simp only [mapGet, if_neg hkj]
  exact mapGet_filter_ne m k j h

/-- Pages never visited by the loop keep their cache entry. -/
theorem batchLoop_cache_untouched (render : ℕ → Option Artifact)
    (colorize : ℕ → Option ℕ) (total : ℕ) (j : ℕ) :
    ∀ (l : List ℕ), j ∉ l → ∀ (s : ObsState),
      mapGet (finalState s (batchLoop render colorize total l)).cache j =
        mapGet s.cache j := by
  intro l
  induction l with
  | nil => intro _ s; rfl
  | cons x xs ih =>
    intro hj s
    have hjx : j ≠ x := fun h => hj (h ▸ List.mem_cons_self x xs)
    have hjxs : j ∉ xs := fun h => hj (List.mem_cons_of_mem x h)
    cases hrx : render x with
    | none =>
      simp only [batchLoop, hrx]
      rfl
    | some r =>
      cases hcx : colorize r.imageId with
      | none =>
        simp only [batchLoop, hrx, hcx, finalState_cons]
        exact ih hjxs _
      | some c =>
        simp only [batchLoop, hrx, hcx, finalState_cons]
        rw [ih hjxs]
        exact mapGet_mapSet_other s.cache x ⟨c, r.width, r.height⟩ j hjx

/-- What the final cache holds for a page the loop visits, provided every
visited page renders: the success artifact when the page succeeds, the prior
entry when its colorize step fails. -/
theorem batchLoop_cache_visited (render : ℕ → Option Artifact)
    (colorize : ℕ → Option ℕ) (total : ℕ) (j : ℕ) :
    ∀ (l : List ℕ), (∀ i ∈ l, (render i).isSome) → l.Nodup → j ∈ l →
      ∀ (s : ObsState),
        mapGet (finalState s (batchLoop render colorize total l)).cache j =
          cacheOutcome render colorize j (mapGet s.cache j) := by
  intro l
  induction l with
  | nil => intro _ _ hj; exact absurd hj (List.not_mem_nil j)
  | cons x xs ih =>
    intro hr hnd hj s
    obtain ⟨r, hrx⟩ := Option.isSome_iff_exists.mp (hr x (List.mem_cons_self x xs))
    have hrxs : ∀ i ∈ xs, (render i).isSome :=
      fun i hi => hr i (List.mem_cons_of_mem x hi)
    rcases List.mem_cons.mp hj with rfl | hjxs
    · have hjnot : j ∉ xs := (List.nodup_cons.mp hnd).1
      cases hcx : colorize r.imageId with
      | none =>
        simp only [batchLoop, hrx, hcx, finalState_cons]
        rw [batchLoop_cache_untouched render colorize total j xs hjnot]
        simp [cacheOutcome, successArtifact, hrx, hcx, stepEvent]
      | some c =>
        simp only [batchLoop, hrx, hcx, finalState_cons]
        rw [batchLoop_cache_untouched render colorize total j xs hjnot]
        simp only [stepEvent]
        rw [mapGet_mapSet_self]
        simp [cacheOutcome, successArtifact, hrx, hcx]
    · have hndxs : xs.Nodup := (List.nodup_cons.mp hnd).2
      have hjx : j ≠ x := fun h => (List.nodup_cons.mp hnd).1 (h ▸ hjxs)
      cases hcx : colorize r.imageId with
      | none =>
        simp only [batchLoop, hrx, hcx, finalState_cons]
        exact ih hrxs hndxs hjxs _
      | some c =>
        simp only [batchLoop, hrx, hcx, finalState_cons]
        rw [ih hrxs hndxs hjxs]
        simp only [stepEvent]
        rw [mapGet_mapSet_other s.cache x ⟨c, r.width, r.height⟩ j hjx]

/-- `range'` never repeats a page number. -/
theorem nodup_range' : ∀ (n s : ℕ), (List.range' s n).Nodup := by
  intro n
  induction n with
  | zero => intro s; exact List.nodup_nil
  | succ n ih =>
    intro s
    rw [List.range'_succ]
    refine List.nodup_cons.mpr ⟨?_, ih (s + 1)⟩
    intro hmem
    have := (List.mem_range'_1.mp hmem).1
    omega

/-- Normal form of the loop's event list when every visited page renders:
some prefix of per-page events, holding one progress event per page and one
log per failed page, followed by exactly one final progress clear. -/
theorem batchLoop_shape (render : ℕ → Option Artifact) (colorize : ℕ → Option ℕ)
    (total : ℕ) :
    ∀ (l : List ℕ), (∀ i ∈ l, (render i).isSome) →
      ∃ pre, batchLoop render colorize total l = pre ++ [BEvent.progressCleared] ∧
        BEvent.progressCleared ∉ pre ∧
        (∀ i ∈ l, BEvent.progress i total ∈ pre) ∧
        (∀ i ∈ l, successArtifact render colorize i = none → BEvent.logError i ∈ pre) := by
  intro l
  induction l with
  | nil =>
    exact fun _ => ⟨[], rfl, by simp, by simp, by simp⟩
  | cons x xs ih =>
    intro hr
    obtain ⟨r, hrx⟩ := Option.isSome_iff_exists.mp (hr x (List.mem_cons_self x xs))
    obtain ⟨pre, hpre, hncl, hprog, hlog⟩ :=
      ih (fun i hi => hr i (List.mem_cons_of_mem x hi))
    cases hcx : colorize r.imageId with
    | none =>
      refine ⟨BEvent.progress x total :: BEvent.logError x :: pre, ?_, ?_, ?_, ?_⟩
      · simp only [batchLoop, hrx, hcx, hpre]
        rfl
      · simp [hncl]
      · intro i hi
        rcases List.mem_cons.mp hi with rfl | hi
        · exact List.mem_cons_self _ _
        · exact List.mem_cons_of_mem _ (List.mem_cons_of_mem _ (hprog i hi))
      · intro i hi hsucc
        rcases List.mem_cons.mp hi with rfl | hi
        · exact List.mem_cons_of_mem _ (List.mem_cons_self _ _)
        · exact List.mem_cons_of_mem _ (List.mem_cons_of_mem _ (hlog i hi hsucc))
    | some c =>
      refine ⟨BEvent.progress x total :: BEvent.cacheSet x ⟨c, r.width, r.height⟩ :: pre,
        ?_, ?_, ?_, ?_⟩
      · simp only [batchLoop, hrx, hcx, hpre]
        rfl
      · simp [hncl]
      · intro i hi
        rcases List.mem_cons.mp hi with rfl | hi
        · exact List.mem_cons_self _ _
        · exact List.mem_cons_of_mem _ (List.mem_cons_of_mem _ (hprog i hi))
      · intro i hi hsucc
        rcases List.mem_cons.mp hi with rfl | hi
        · exact absurd hsucc (by simp [successArtifact, hrx, hcx])
        · exact List.mem_cons_of_mem _ (List.mem_cons_of_mem _ (hlog i hi hsucc))

/-- Counterexample to C2 as stated: with 2 pages where page 1's render
throws, the run aborts — page 2 would succeed, yet its progress event never
happens and the final cache does not contain it, because the thrown render
error escapes to the outer catch instead of being handled per page. -/
theorem batch_render_failure_aborts_cex :
    BEvent.progress 2 2 ∉
        handleColorizeAll (fun i => if i = 1 then none else some ⟨i, 10, 10⟩)
          (fun d => some (d + 100)) 2 ∧
      mapGet (finalState ⟨none, []⟩
          (handleColorizeAll (fun i => if i = 1 then none else some ⟨i, 10, 10⟩)
            (fun d => some (d + 100)) 2)).cache 2 = none ∧
      successArtifact (fun i => if i = 1 then none else some ⟨i, 10, 10⟩)
          (fun d => some (d + 100)) 2 = some ⟨102, 10, 10⟩ ∧
      BEvent.setError ∈
        handleColorizeAll (fun i => if i = 1 then none else some ⟨i, 10, 10⟩)
          (fun d => some (d + 100)) 2 := by
  decide

/-- Claim C2, amended: when no page's render throws, a per-page transform failure
is isolated: every page is reached (its progress event is published), every
failed page is logged and left absent from the final cache, every successful
page's artifact is in the final cache, and BatchProgress reaches
`{current: N, total: N}` before the single final clear.  (A render failure,
by contrast, aborts the run — see the counterexample.) -/
theorem batch_transform_failure_isolated (render : ℕ → Option Artifact)
    (colorize : ℕ → Option ℕ) (N : ℕ) (hN : 1 ≤ N)
    (hr : ∀ i ∈ List.range' 1 N, (render i).isSome) :
    (∀ i ∈ List.range' 1 N,
        BEvent.progress i N ∈ handleColorizeAll render colorize N) ∧
      (∀ i ∈ List.range' 1 N, successArtifact render colorize i = none →
        BEvent.logError i ∈ handleColorizeAll render colorize N ∧
          mapGet (finalState ⟨none, []⟩ (handleColorizeAll render colorize N)).cache i =
            none) ∧
      (∀ i ∈ List.range' 1 N, ∀ a, successArtifact render colorize i = some a →
        mapGet (finalState ⟨none, []⟩ (handleColorizeAll render colorize N)).cache i =
          some a) ∧
      (∃ pre, handleColorizeAll render colorize N = pre ++ [BEvent.progressCleared] ∧
        BEvent.progress N N ∈ pre ∧ BEvent.progressCleared ∉ pre) := by
  obtain ⟨pre, hpre, hncl, hprog, hlog⟩ := batchLoop_shape render colorize N _ hr
  have hcache : ∀ j ∈ List.range' 1 N,
      mapGet (finalState ⟨none, []⟩ (handleColorizeAll render colorize N)).cache j =
        cacheOutcome render colorize j none := by
    intro j hj
    rw [handleColorizeAll, finalState_cons]
    exact batchLoop_cache_visited render colorize N j _ hr (nodup_range' N 1) hj _
  refine ⟨?_, ?_, ?_, ?_⟩
  · intro i hi
    rw [handleColorizeAll, hpre]
    exact List.mem_cons_of_mem _ (List.mem_append_left _ (hprog i hi))
  · intro i hi hsucc
    refine ⟨?_, ?_⟩
    · rw [handleColorizeAll, hpre]
      exact List.mem_cons_of_mem _ (List.mem_append_left _ (hlog i hi hsucc))
    · rw [hcache i hi]
      simp [cacheOutcome, hsucc]
  · intro i hi a hsucc
    rw [hcache i hi]
    simp [cacheOutcome, hsucc]
  · refine ⟨BEvent.progress 0 N :: pre, ?_, ?_, ?_⟩
    · rw [handleColorizeAll, hpre]
      rfl
    · refine List.mem_cons_of_mem _ (hprog N ?_)
      rw [List.mem_range'_1]
      omega
    · intro hmem
      rcases List.mem_cons.mp hmem with h | h
      · exact absurd h (by simp)
      · exact hncl h

/-- Witness for the amended C2: 3 pages, all renders succeed, page 2's
transform fails; pages 1 and 3 are cached, page 2 is logged and absent, and
progress reaches 3 of 3 before the clear. -/
theorem batch_transform_failure_isolated_witness :
    (1 ≤ 3 ∧ ∀ i ∈ List.range' 1 3,
        ((fun i => some (Artifact.mk i 10 10)) i).isSome) ∧
      (∀ i ∈ List.range' 1 3,
        BEvent.progress i 3 ∈ handleColorizeAll (fun i => some ⟨i, 10, 10⟩)
          (fun d => if d = 2 then none else some (d + 100)) 3) ∧
      (∀ i ∈ List.range' 1 3,
        successArtifact (fun i => some ⟨i, 10, 10⟩)
            (fun d => if d = 2 then none else some (d + 100)) i = none →
        BEvent.logError i ∈ handleColorizeAll (fun i => some ⟨i, 10, 10⟩)
            (fun d => if d = 2 then none else some (d + 100)) 3 ∧
          mapGet (finalState ⟨none, []⟩ (handleColorizeAll (fun i => some ⟨i, 10, 10⟩)
            (fun d => if d = 2 then none else some (d + 100)) 3)).cache i = none) ∧
      (∀ i ∈ List.range' 1 3, ∀ a,
        successArtifact (fun i => some ⟨i, 10, 10⟩)
            (fun d => if d = 2 then none else some (d + 100)) i = some a →
        mapGet (finalState ⟨none, []⟩ (handleColorizeAll (fun i => some ⟨i, 10, 10⟩)
            (fun d => if d = 2 then none else some (d + 100)) 3)).cache i = some a) ∧
      (∃ pre, handleColorizeAll (fun i => some ⟨i, 10, 10⟩)
            (fun d => if d = 2 then none else some (d + 100)) 3 =
          pre ++ [BEvent.progressCleared] ∧
        BEvent.progress 3 3 ∈ pre ∧ BEvent.progressCleared ∉ pre) := by
  have h := batch_transform_failure_isolated (fun i => some ⟨i, 10, 10⟩)
    (fun d => if d = 2 then none else some (d + 100)) 3 (by norm_num) (by decide)
  exact ⟨⟨by norm_num, by decide⟩, h.1, h.2.1, h.2.2.1, h.2.2.2⟩

/-- Invariant propagation for the loop: starting from a state whose cache
already holds every success strictly below the next page, every state the
loop passes through is cache-consistent with its published progress. -/
theorem batchLoop_cacheConsistent (render : ℕ → Option Artifact)
    (colorize : ℕ → Option ℕ) (N : ℕ) :
    ∀ (b a : ℕ) (s₀ : ObsState),
      (∀ i ∈ List.range' a b, (render i).isSome) →
      (∀ j, 1 ≤ j → j < a → ∀ x, successArtifact render colorize j = some x →
        mapGet s₀.cache j = some x) →
      cacheConsistent render colorize N s₀ →
      ∀ s ∈ List.scanl stepEvent s₀ (batchLoop render colorize N (List.range' a b)),
        cacheConsistent render colorize N s := by
  intro b
  induction b with
  | zero =>
    intro a s₀ _ _ hP s hs
    simp only [List.range', batchLoop, List.scanl_cons, List.scanl_nil] at hs
    rcases List.mem_cons.mp hs with rfl | hs
    · exact hP
    · rcases List.mem_cons.mp hs with rfl | hs
      · intro i hi
        exact absurd hi (by simp [stepEvent])
      · exact absurd hs (List.not_mem_nil s)
  | succ b ih =>
    intro a s₀ hr hinv hP s hs
    rw [List.range'_succ] at hs hr
    obtain ⟨r, hra⟩ := Option.isSome_iff_exists.mp (hr a (List.mem_cons_self _ _))
    have hrrest : ∀ i ∈ List.range' (a + 1) b, (render i).isSome :=
      fun i hi => hr i (List.mem_cons_of_mem _ hi)
    have hP1 : cacheConsistent render colorize N
        (stepEvent s₀ (BEvent.progress a N)) := by
      intro i hi j hj1 hji x hx
      simp only [stepEvent] at hi ⊢
      have hia : a = i := congrArg Prod.fst (Option.some.inj hi)
      subst hia
      exact hinv j hj1 hji x hx
    cases hcx : colorize r.imageId with
    | none =>
      simp only [batchLoop, hra, hcx, List.scanl_cons] at hs
      rcases List.mem_cons.mp hs with rfl | hs
      · exact hP
      · rcases List.mem_cons.mp hs with rfl | hs
        · exact hP1
        · refine ih (a + 1)
            (stepEvent (stepEvent s₀ (BEvent.progress a N)) (BEvent.logError a))
            hrrest ?_ ?_ s hs
          · intro j hj1 hja x hx
            simp only [stepEvent]
            rcases Nat.lt_succ_iff_lt_or_eq.mp hja with hja | rfl
            · exact hinv j hj1 hja x hx
            · simp [successArtifact, hra, hcx] at hx
          · intro i hi
            simp only [stepEvent] at hi ⊢
            exact hP1 i hi
    | some c =>
      simp only [batchLoop, hra, hcx, List.scanl_cons] at hs
      rcases List.mem_cons.mp hs with rfl | hs
      · exact hP
      · rcases List.mem_cons.mp hs with rfl | hs
        · exact hP1
        · have hP2 : cacheConsistent render colorize N
              (stepEvent (stepEvent s₀ (BEvent.progress a N))
                (BEvent.cacheSet a ⟨c, r.width, r.height⟩)) := by
            intro i hi j hj1 hji x hx
            simp only [stepEvent] at hi ⊢
            have hia : a = i := congrArg Prod.fst (Option.some.inj hi)
            subst hia
            rw [mapGet_mapSet_other _ _ _ j (Nat.ne_of_lt hji)]
            exact hinv j hj1 hji x hx
          refine ih (a + 1) _ hrrest ?_ hP2 s hs
          intro j hj1 hja x hx
          simp only [stepEvent]
          rcases Nat.lt_succ_iff_lt_or_eq.mp hja with hja | rfl
          · rw [mapGet_mapSet_other _ _ _ j (Nat.ne_of_lt hja)]
            exact hinv j hj1 hja x hx
          · simp only [successArtifact, hra, hcx] at hx
            have hxa : x = ⟨c, r.width, r.height⟩ := (Option.some.inj hx).symm
            rw [hxa]
            exact mapGet_mapSet_self _ _ _

/-- Counterexample to C5 as stated: in a fully successful 1-page run the
observable state right after `BatchProgress{current: 1, total: 1}` is
published still has an empty cache, although page 1 does succeed — progress
is published at the top of the iteration, before the cache update. -/
theorem progress_before_cache_cex :
    (ObsState.mk (some (1, 1)) []) ∈
        runStates ⟨none, []⟩ (handleColorizeAll (fun i => some ⟨i, 10, 10⟩)
          (fun d => some (d + 100)) 1) ∧
      mapGet (ObsState.mk (some (1, 1)) []).cache 1 = none ∧
      successArtifact (fun i => some ⟨i, 10, 10⟩) (fun d => some (d + 100)) 1 =
        some ⟨101, 10, 10⟩ := by
  decide

/-- Claim C5, amended: `BatchProgress{current: i}` is published at the start of
iteration `i`, before page `i` is processed; consequently at every
observation point where progress shows `current = i`, the cache already
contains the artifact of every successfully processed page strictly before
`i` (page `i` itself appears only later within the iteration). -/
theorem progress_published_before_cache (render : ℕ → Option Artifact)
    (colorize : ℕ → Option ℕ) (N : ℕ)
    (hr : ∀ i ∈ List.range' 1 N, (render i).isSome) :
    ∀ s ∈ runStates ⟨none, []⟩ (handleColorizeAll render colorize N),
      cacheConsistent render colorize N s := by
  intro s hs
  rw [runStates, handleColorizeAll, List.scanl_cons] at hs
  rcases List.mem_cons.mp hs with rfl | hs
  · intro i hi
    exact absurd hi (by simp)
  · refine batchLoop_cacheConsistent render colorize N N 1 _ hr ?_ ?_ s hs
    · intro j hj1 hj0 x _
      omega
    · intro i hi j hj1 hji x _
      simp only [stepEvent] at hi
      have h0 : (0 : ℕ) = i := congrArg Prod.fst (Option.some.inj hi)
      omega

/-- Witness for the amended C5: a concrete mid-run state of a 2-page run —
progress shows page 2 in progress and the cache already holds page 1. -/
theorem progress_published_before_cache_witness :
    (∀ i ∈ List.range' 1 2, ((fun i => some (Artifact.mk i 10 10)) i).isSome) ∧
      cacheConsistent (fun i => some ⟨i, 10, 10⟩) (fun d => some (d + 100)) 2
        ⟨some (2, 2), [(1, ⟨101, 10, 10⟩)]⟩ :=
  ⟨by decide,
    progress_published_before_cache (fun i => some ⟨i, 10, 10⟩)
      (fun d => some (d + 100)) 2 (by decide)
      ⟨some (2, 2), [(1, ⟨101, 10, 10⟩)]⟩ (by decide)⟩

end ChromaPDF
